import Mathlib

/-!
Verification of the capture-coder pipeline (src/main.py) against its
natural-language specification.

Python strings are modelled as lists of characters (`PyStr`); Python
`str.strip`, `str.split`, `str.join` and `startswith` are embedded as the
corresponding list functions below.  The external AI service
(`model.generate_content`) is modelled as an oracle
`Gen : PyStr → PILImage → Except PyStr PyStr` (prompt and image in,
response text or a raised error out), and the OS screen grab
(`ImageGrab.grab`) as an oracle returning an optional image.
-/

/-- Python strings as character lists. -/
abbrev PyStr := List Char

/-- Whitespace predicate used by `str.strip`. -/
def ws (c : Char) : Bool := c.isWhitespace

/-- Strip trailing whitespace (the tail half of Python `str.strip`). -/
def stripBack (s : PyStr) : PyStr := (s.reverse.dropWhile ws).reverse

/-- Python `str.strip()`: drop leading and trailing whitespace. -/
def pyStrip (s : PyStr) : PyStr := stripBack (s.dropWhile ws)

/-- Python `s.split(chr(10))`: split into lines at every newline;
the empty string yields one empty piece, exactly as in Python. -/
def splitLines : PyStr → List PyStr
  | [] => [[]]
  | c :: rest =>
    match splitLines rest with
    | [] => [[]]
    | l :: ls => if c = '\n' then [] :: l :: ls else (c :: l) :: ls

/-- Python `chr(10).join(lines)`. -/
def joinLines : List PyStr → PyStr
  | [] => []
  | [l] => l
  | l :: l2 :: ls => l ++ '\n' :: joinLines (l2 :: ls)

/-- Boolean list-prefix test (Python `startswith`). -/
def isPre : PyStr → PyStr → Bool
  | [], _ => true
  | _ :: _, [] => false
  | a :: as, b :: bs => a == b && isPre as bs

/-- Python substring containment `pat in s`. -/
def containsSub (pat : PyStr) : PyStr → Bool
  | [] => isPre pat []
  | c :: rest => isPre pat (c :: rest) || containsSub pat rest

/-- The markdown code-fence marker. -/
def fence : PyStr := "```".toList

/-- Python `line.strip().startswith(fence)`: is this a fence-marker line? -/
def isFenceLine (l : PyStr) : Bool := isPre fence (pyStrip l)

/-- The line-filtering loop of `ExpertCoder.clean_code` (src/main.py lines
194-203), translated branch for branch: fence-marker lines toggle
`in_block` and are skipped via `continue`; every other line reaches the
nested conditionals. -/
def cleanLoop (in_block : Bool) : List PyStr → List PyStr
  | [] => []
  | line :: rest =>
    if isFenceLine line then
      cleanLoop (!in_block) rest
    else
      if in_block || (!(isFenceLine line) && !in_block) then
        if !(isFenceLine line) then
          line :: cleanLoop in_block rest
        else
          cleanLoop in_block rest
      else
        cleanLoop in_block rest

/-- `ExpertCoder.clean_code` (src/main.py lines 188-206). -/
def clean_code (text : PyStr) : PyStr :=
  let code := pyStrip text
  let code :=
    if containsSub fence code then
      joinLines (cleanLoop false (splitLines code))
    else
      code
  pyStrip code

/-- The loop of the cleaning function as the SPEC describes it
(spec section 4.5: retain only lines between matched marker pairs,
discarding the markers themselves and any prose outside the first and
last fence).  Stated only to compare `clean_code` against the spec. -/
def specFenceLoop (in_block : Bool) : List PyStr → List PyStr
  | [] => []
  | line :: rest =>
    if isFenceLine line then
      specFenceLoop (!in_block) rest
    else
      if in_block then
        line :: specFenceLoop in_block rest
      else
        specFenceLoop in_block rest

/-- Response cleaning as the SPEC words it (section 4.5), for refinement
comparison with the implementation `clean_code`. -/
def clean_code_specified (text : PyStr) : PyStr :=
  let code := pyStrip text
  let code :=
    if containsSub fence code then
      joinLines (specFenceLoop false (splitLines code))
    else
      code
  pyStrip code

example : clean_code "abc".toList = "abc".toList := by decide
example : clean_code "prose\n```\ncode\n```".toList = "prose\ncode".toList := by decide
example : clean_code_specified "prose\n```\ncode\n```".toList = "code".toList := by decide
example : clean_code "  x  ".toList = "x".toList := by decide

/-- A PIL image: its `mode` (the only attribute the pipeline branches on)
plus an abstract pixel content used for identity. -/
structure PILImage where
  mode : PyStr
  data : Nat
deriving DecidableEq

/-- The external AI service: prompt and image in, response text out, or a
raised error carrying its message (`model.generate_content(...).text`). -/
abbrev Gen := PyStr → PILImage → Except PyStr PyStr

/-- The OS pixel grab `ImageGrab.grab(bbox=(left, top, right, bottom))`,
already wrapped in the try/except of the source: failures give `none`. -/
abbrev GrabFn := Int × Int × Int × Int → Option PILImage

/-- `INITIAL_ANALYSIS_PROMPT` (src/main.py lines 39-54). -/
def INITIAL_ANALYSIS_PROMPT : PyStr :=
  ("You are an expert competitive programmer and software engineer. Analyze this coding problem carefully.\n\nFirst, identify:\n1. Problem type (array manipulation, dynamic programming, graph, etc.)\n2. Key constraints and edge cases\n3. Expected time/space complexity\n4. Optimal approach/algorithm\n\nThen provide a solution following these rules:\n- Output ONLY Python code\n- Use the most efficient algorithm\n- Handle ALL edge cases\n- Include brief # comments for complex logic\n- NO markdown formatting, NO explanations outside code\n- Start with necessary imports\n- Use clear, concise variable names").toList

/-- `REFINEMENT_PROMPT` (src/main.py lines 56-63). -/
def REFINEMENT_PROMPT : PyStr :=
  ("Review this solution for the given problem. Check for:\n1. Correctness - does it solve all cases?\n2. Efficiency - is this optimal O(n) complexity?\n3. Edge cases - empty inputs, single elements, maximums?\n4. Code quality - can it be more concise/Pythonic?\n5. Bug fixes - any logical errors?\n\nOutput ONLY the improved Python code. NO explanations outside # comments.").toList

/-- `FINAL_OPTIMIZATION_PROMPT` (src/main.py lines 65-71). -/
def FINAL_OPTIMIZATION_PROMPT : PyStr :=
  ("Final pass - make this solution production-ready:\n1. Optimize any remaining inefficiencies\n2. Ensure clean, Pythonic code style\n3. Remove redundant operations\n4. Verify all test cases would pass\n\nOutput ONLY the final optimized Python code").toList

/-- `USER_FEEDBACK_PROMPT.format(feedback=feedback)` (src/main.py lines 73-77). -/
def USER_FEEDBACK_PROMPT (feedback : PyStr) : PyStr :=
  ("The user has provided feedback about the code:\n").toList ++ feedback ++
  ("\n\nIncorporate this feedback and fix the code accordingly.\nOutput ONLY the corrected Python code.").toList

/-- The RGBA-to-RGB conversion at the top of `solve_with_iterations`
(src/main.py lines 224-228): pixel compositing is abstracted, the mode
change and content survival are kept. -/
def rgbaConvert (image : PILImage) : PILImage :=
  if image.mode = "RGBA".toList then { mode := "RGB".toList, data := image.data } else image

/-- The pass-2 prompt `f"{REFINEMENT_PROMPT}\n\nCurrent solution:\n{solution}"`. -/
def refinement_prompt (solution : PyStr) : PyStr :=
  REFINEMENT_PROMPT ++ ("\n\nCurrent solution:\n").toList ++ solution

/-- The pass-3 prompt `f"{FINAL_OPTIMIZATION_PROMPT}\n\nCurrent solution:\n{solution}"`. -/
def optimization_prompt (solution : PyStr) : PyStr :=
  FINAL_OPTIMIZATION_PROMPT ++ ("\n\nCurrent solution:\n").toList ++ solution

/-- The console line `print(f"# Error during solving: {e}")`. -/
def errSolveLine (e : PyStr) : PyStr := ("# Error during solving: ").toList ++ e

/-- The console line `print(f"# Solution refined through {n} iterations")`. -/
def refinedThroughLine (n : Nat) : PyStr :=
  ("# Solution refined through ").toList ++ (Nat.repr n).toList ++ (" iterations").toList

/-- Result of `ExpertCoder.solve_with_iterations`: the returned pair
`(solution, iterations)` plus, for observation, the instruction payloads
sent to the service in order and the console lines printed. -/
structure SolveResult where
  solution : Option PyStr
  iterations : List PyStr
  prompts : List PyStr
  log : List PyStr
deriving DecidableEq

/-- `ExpertCoder.solve_with_iterations` (src/main.py lines 219-260).  The
`except` clause returns `(None, [])`, discarding iterations collected so
far; each pass cleans the response and appends it. -/
def solve_with_iterations (svc : Gen) (image0 : PILImage) (max_iterations : Nat) :
    SolveResult :=
  let image := rgbaConvert image0
  let log1 : List PyStr := [("# Step 1: Initial analysis and solution...").toList]
  match svc INITIAL_ANALYSIS_PROMPT image with
  | .error e => ⟨none, [], [INITIAL_ANALYSIS_PROMPT], log1 ++ [errSolveLine e]⟩
  | .ok r1 =>
    let sol1 := clean_code r1
    let its1 := [sol1]
    if max_iterations > 1 then
      let log2 := log1 ++ [("# Step 2: Reviewing for correctness and efficiency...").toList]
      match svc (refinement_prompt sol1) image with
      | .error e =>
        ⟨none, [], [INITIAL_ANALYSIS_PROMPT, refinement_prompt sol1], log2 ++ [errSolveLine e]⟩
      | .ok r2 =>
        let sol2 := clean_code r2
        let its2 := its1 ++ [sol2]
        if max_iterations > 2 then
          let log3 := log2 ++ [("# Step 3: Final optimization pass...").toList]
          match svc (optimization_prompt sol2) image with
          | .error e =>
            ⟨none, [],
              [INITIAL_ANALYSIS_PROMPT, refinement_prompt sol1, optimization_prompt sol2],
              log3 ++ [errSolveLine e]⟩
          | .ok r3 =>
            let sol3 := clean_code r3
            let its3 := its2 ++ [sol3]
            ⟨some sol3, its3,
              [INITIAL_ANALYSIS_PROMPT, refinement_prompt sol1, optimization_prompt sol2],
              log3 ++ [refinedThroughLine its3.length]⟩
        else
          ⟨some sol2, its2, [INITIAL_ANALYSIS_PROMPT, refinement_prompt sol1],
            log2 ++ [refinedThroughLine its2.length]⟩
    else
      ⟨some sol1, its1, [INITIAL_ANALYSIS_PROMPT], log1 ++ [refinedThroughLine its1.length]⟩

/-- Result of `ExpertCoder.apply_user_feedback`: the returned code (or
`None` after a caught exception) and the lines printed. -/
structure FeedbackResult where
  improved : Option PyStr
  log : List PyStr
deriving DecidableEq

/-- `ExpertCoder.apply_user_feedback` (src/main.py lines 262-278). -/
def apply_user_feedback (svc : Gen) (image : PILImage) (current_code feedback : PyStr) :
    FeedbackResult :=
  let applying := ("# Applying feedback: ").toList ++ feedback.take 50 ++ ("...").toList
  let prompt := USER_FEEDBACK_PROMPT feedback ++ ("\n\nCurrent code:\n").toList ++ current_code
  match svc prompt image with
  | .ok t => ⟨some (clean_code t), [applying, ("# Feedback incorporated").toList]⟩
  | .error e => ⟨none, [applying, ("# Error applying feedback: ").toList ++ e]⟩

/-- `AppState` (src/main.py lines 79-103).  The tkinter overlay object is
modelled by a generation number (`overlay`/`overlayGen`: which Toplevel is
current and how many were ever created) and the per-gesture mouse listener
threads by a running count (`mouseListeners`); the processing queue is
passed separately to the functions that drain it. -/
structure AppState where
  response_text : PyStr
  problem_image : Option PILImage
  iteration_history : List PyStr
  start_pos : Option (Int × Int)
  end_pos : Option (Int × Int)
  capturing : Bool
  ctrl_pressed : Bool
  shift_pressed : Bool
  alt_pressed : Bool
  overlay : Option Nat
  last_clipboard_hash : Option Nat
  clipboard_monitoring : Bool
  is_typing : Bool
  feedback_mode : Bool
  feedback_text : PyStr
  overlayGen : Nat
  mouseListeners : Nat
deriving DecidableEq

/-- The state right after `AppState.__post_init__`. -/
def initState : AppState :=
  { response_text := []
    problem_image := none
    iteration_history := []
    start_pos := none
    end_pos := none
    capturing := false
    ctrl_pressed := false
    shift_pressed := false
    alt_pressed := false
    overlay := none
    last_clipboard_hash := none
    clipboard_monitoring := true
    is_typing := false
    feedback_mode := false
    feedback_text := []
    overlayGen := 0
    mouseListeners := 0 }

/-- A state transition together with the console lines it printed. -/
structure StepOut where
  state : AppState
  log : List PyStr
deriving DecidableEq

/-- `ScreenCapture.capture_area` (src/main.py lines 147-161): normalize the
drag rectangle, reject sub-pixel areas, then grab. -/
def capture_area (grab : GrabFn) (s e : Int × Int) : Option PILImage :=
  let left := min s.1 e.1
  let top := min s.2 e.2
  let right := max s.1 e.1
  let bottom := max s.2 e.2
  if right - left < 1 ∨ bottom - top < 1 then
    none
  else
    grab (left, top, right, bottom)

/-- `ExpertSolverApp._process_problem` (src/main.py lines 637-650).  Note
the Python truthiness test `if solution:`: both `None` and the empty
string take the failure branch. -/
def process_problem (svc : Gen) (s : AppState) (image : PILImage) : StepOut :=
  let analyzing := ("# Analyzing problem with expert solver...").toList
  let s := { s with problem_image := some image }
  let r := solve_with_iterations svc image 3
  match r.solution with
  | some sol =>
    if sol.isEmpty then
      ⟨s, analyzing :: r.log ++ [("# Failed to generate solution").toList]⟩
    else
      ⟨{ s with response_text := sol, iteration_history := r.iterations },
        analyzing :: r.log ++
          [("# Expert solution ready (refined ").toList ++ (Nat.repr r.iterations.length).toList
            ++ ("x)").toList,
           ("# Press Ctrl+Shift+V to type").toList]⟩
  | none => ⟨s, analyzing :: r.log ++ [("# Failed to generate solution").toList]⟩

/-- `UIManager.destroy_overlay` (src/main.py lines 310-318). -/
def destroy_overlay (s : AppState) : AppState :=
  if s.overlay.isSome then { s with overlay := none } else s

/-- The items `(action_type, data)` placed on `state.processing_queue`. -/
inductive QueueItem where
  | area
  | window (img : Option PILImage)
  | clipboard (img : Option PILImage)
  | refine
  | feedback (text : PyStr)
deriving DecidableEq

/-- The fixed instruction used for the `refine` action (src/main.py line 614). -/
def refineInstruction : PyStr :=
  ("Optimize further and ensure all edge cases are handled").toList

/-- One iteration of the `while True` body of
`ExpertSolverApp._process_queue` (src/main.py lines 585-635), for one
dequeued item.  Truthiness tests (`if image:`, `if improved:`,
`if ... and self.state.response_text:`) are rendered exactly. -/
def processQueueStep (svc : Gen) (grab : GrabFn) (s : AppState) (item : QueueItem) : StepOut :=
  match item with
  | .area =>
    let s := destroy_overlay s
    match s.start_pos, s.end_pos with
    | some sp, some ep =>
      match capture_area grab sp ep with
      | some image => process_problem svc s image
      | none => ⟨s, []⟩
    | _, _ => ⟨s, []⟩
  | .window d =>
    match d with
    | some image => process_problem svc s image
    | none => ⟨s, []⟩
  | .clipboard d =>
    match d with
    | some image => process_problem svc s image
    | none => ⟨s, []⟩
  | .refine =>
    match s.problem_image with
    | some pi =>
      if s.response_text.isEmpty then ⟨s, []⟩
      else
        let r := apply_user_feedback svc pi s.response_text refineInstruction
        match r.improved with
        | some improved =>
          if improved.isEmpty then ⟨s, r.log⟩
          else
            ⟨{ s with response_text := improved,
                      iteration_history := s.iteration_history ++ [improved] },
              r.log ++ [("# Solution refined").toList]⟩
        | none => ⟨s, r.log⟩
    | none => ⟨s, []⟩
  | .feedback txt =>
    match s.problem_image with
    | some pi =>
      if s.response_text.isEmpty then ⟨s, []⟩
      else
        let r := apply_user_feedback svc pi s.response_text txt
        match r.improved with
        | some improved =>
          if improved.isEmpty then ⟨s, r.log⟩
          else
            ⟨{ s with response_text := improved,
                      iteration_history := s.iteration_history ++ [improved] },
              r.log ++ [("# Feedback applied").toList]⟩
        | none => ⟨s, r.log⟩
    | none => ⟨s, []⟩

/-- The worker draining a buffered queue: iterating the loop body of
`_process_queue` over the pending items.  The `while True` never exits;
processing one item is total, so draining continues after every item. -/
def process_queue (svc : Gen) (grab : GrabFn) (s : AppState) : List QueueItem → AppState
  | [] => s
  | it :: rest => process_queue svc grab (processQueueStep svc grab s it).state rest

example :
    (process_problem (fun _ _ => Except.ok ("x = 1").toList) initState ⟨"RGB".toList, 0⟩).state.response_text
      = ("x = 1").toList := by decide

/-- `UIManager.create_overlay` (src/main.py lines 287-308): a fresh
Toplevel window becomes the current overlay.  Freshness is modelled by the
bumped generation number. -/
def create_overlay (s : AppState) : AppState :=
  { s with overlay := some (s.overlayGen + 1), overlayGen := s.overlayGen + 1 }

/-- `HotkeyHandler._start_area_capture` (src/main.py lines 482-496),
translated line by line: set `capturing`, create the overlay, start a new
mouse-listener thread.  `overlayOk` is the outcome of the unguarded
tkinter call `self.ui.create_overlay()`: when it raises, the exception
propagates (only `AttributeError` is caught upstream), so the function is
abandoned after `capturing` was already set and before any listener is
subscribed; the returned flag records whether the call completed. -/
def start_area_capture (overlayOk : Bool) (s : AppState) : AppState × Bool :=
  let s1 := { s with capturing := true }
  if overlayOk then
    let s2 := create_overlay s1
    ({ s2 with mouseListeners := s2.mouseListeners + 1 }, true)
  else
    (s1, false)

/-- `HotkeyHandler.on_mouse_click` (src/main.py lines 462-475).  Returns
the new state, the item enqueued (if any), and whether the pynput
listener keeps running (Python `return False` stops it). -/
structure ClickOut where
  state : AppState
  enq : Option QueueItem
  keepListening : Bool
deriving DecidableEq

def on_mouse_click (s : AppState) (x y : Int) (leftButton pressed : Bool) : ClickOut :=
  if !s.capturing then
    ⟨s, none, true⟩
  else if leftButton then
    if pressed then
      ⟨{ s with start_pos := some (x, y) }, none, true⟩
    else
      ⟨{ s with end_pos := some (x, y), capturing := false }, some QueueItem.area, false⟩
  else
    ⟨s, none, true⟩

/-- A simulated input-sink event of `NaturalTyping.type_naturally`:
a typed character, or the Enter press/release pair. -/
inductive KeyEvent where
  | typed (c : Char)
  | enter
deriving DecidableEq

/-- Python `s.split(sep)` for a single-character separator. -/
def pySplitChar (sep : Char) : PyStr → List PyStr
  | [] => [[]]
  | c :: rest =>
    match pySplitChar sep rest with
    | [] => [[]]
    | l :: ls => if c = sep then [] :: l :: ls else (c :: l) :: ls

/-- The events emitted for one line by the inner loops of
`type_naturally`: each word character for character, one space between
consecutive words. -/
def lineEvents (line : PyStr) : List KeyEvent :=
  List.intercalate [KeyEvent.typed ' ']
    ((pySplitChar ' ' line).map (fun w => w.map KeyEvent.typed))

/-- The complete key-event sequence emitted by
`NaturalTyping.type_naturally` (src/main.py lines 389-412): lines
separated by Enter.  The function receives only the text and a speed
multiplier (delays do not change which events are emitted); it has no
access to `AppState`, so no cancellation flag is ever consulted between
characters. -/
def type_naturally_events (text : PyStr) : List KeyEvent :=
  List.intercalate [KeyEvent.enter] ((splitLines text).map lineEvents)

/-- `HotkeyHandler._type_code` (src/main.py lines 517-530) followed by the
spawned `type_worker` running to its end: `is_typing` is set, then the
`try/except/finally` types (or fails), and the `finally` clause clears
`is_typing` on the success and error exits alike.  `emitterOk` is the
outcome of the simulated-input sink. -/
def type_code_session (emitterOk : Bool) (s : AppState) : StepOut :=
  let s := { s with is_typing := true }
  if emitterOk then
    ⟨{ s with is_typing := false }, [("# Solution typed").toList]⟩
  else
    ⟨{ s with is_typing := false }, [("# Typing error: ...").toList]⟩

/-- `ExpertSolverApp.start` (src/main.py lines 574-575) spawns exactly one
thread running `_process_queue`: the queue has a single consumer. -/
def workerCount : Nat := 1

/-- Abstract view of the capture pipeline used for the concurrency claim:
request identifiers in arrival order, the FIFO buffer
(`state.processing_queue`), the requests currently being solved, and the
finished ones in completion order. -/
structure PipeState where
  arrivals : List Nat
  pending : List Nat
  inFlight : List Nat
  done : List Nat
deriving DecidableEq

/-- The interleaving semantics of the queue and its consumer.  Producers
(the hotkey handler and the clipboard watcher) may enqueue at any time;
a worker dequeues the head only when fewer than `workerCount` solves are
running (the loop body of `_process_queue` is sequential: it calls
`get()` again only after the previous item is done); finishing removes a
request from the in-flight set. -/
inductive PipeStep : PipeState → PipeState → Prop
  | enqueue (r : Nat) (s : PipeState) :
      PipeStep s { s with arrivals := s.arrivals ++ [r], pending := s.pending ++ [r] }
  | take (r : Nat) (rest : List Nat) (s : PipeState) :
      s.pending = r :: rest →
      s.inFlight.length < workerCount →
      PipeStep s { s with pending := rest, inFlight := s.inFlight ++ [r] }
  | finish (r : Nat) (rest : List Nat) (s : PipeState) :
      s.inFlight = r :: rest →
      PipeStep s { s with inFlight := rest, done := s.done ++ [r] }

/-- The empty pipeline at startup. -/
def initPipeState : PipeState := ⟨[], [], [], []⟩

/-- States the pipeline can reach from startup. -/
def PipeReachable (s : PipeState) : Prop :=
  Relation.ReflTransGen PipeStep initPipeState s

/-- C8: `capture_area` normalizes the drag rectangle — left/top are the
component-wise minima and the grabbed box spans exactly the absolute
coordinate differences — and any drag whose width or height is below one
pixel (start = end included) produces no capture at all. -/
theorem c8_capture_area_normalization (grab : GrabFn) (s e : Int × Int) :
    (max s.1 e.1 - min s.1 e.1 = |s.1 - e.1| ∧ max s.2 e.2 - min s.2 e.2 = |s.2 - e.2|) ∧
    ((|s.1 - e.1| < 1 ∨ |s.2 - e.2| < 1) → capture_area grab s e = none) ∧
    (1 ≤ |s.1 - e.1| → 1 ≤ |s.2 - e.2| →
      capture_area grab s e = grab (min s.1 e.1, min s.2 e.2, max s.1 e.1, max s.2 e.2)) := by
  refine ⟨⟨(max_sub_min_eq_abs _ _).trans (abs_sub_comm _ _),
           (max_sub_min_eq_abs _ _).trans (abs_sub_comm _ _)⟩, ?_, ?_⟩
  · intro h
    simp only [capture_area]
    rw [if_pos]
    rw [max_sub_min_eq_abs, max_sub_min_eq_abs, abs_sub_comm e.1 s.1, abs_sub_comm e.2 s.2]
    exact h
  · intro hx hy
    simp only [capture_area]
    rw [if_neg]
    push_neg
    rw [max_sub_min_eq_abs, max_sub_min_eq_abs, abs_sub_comm e.1 s.1, abs_sub_comm e.2 s.2]
    exact ⟨hx, hy⟩

/-- A concrete grab oracle for the C8 witness. -/
def c8grab : GrabFn := fun r => if r = (10, 20, 50, 80) then some ⟨"RGB".toList, 7⟩ else none

/-- Witness for C8 at the spec test vector `normalize((50,80),(10,20))`
and at a degenerate vertical drag. -/
theorem c8_witness :
    capture_area c8grab (50, 80) (10, 20)
        = c8grab (min (50 : Int) 10, min (80 : Int) 20, max (50 : Int) 10, max (80 : Int) 20) ∧
    c8grab (min (50 : Int) 10, min (80 : Int) 20, max (50 : Int) 10, max (80 : Int) 20)
        = some ⟨"RGB".toList, 7⟩ ∧
    capture_area c8grab (10, 20) (10, 25) = none := by
  refine ⟨?_, by decide, ?_⟩
  · exact (c8_capture_area_normalization c8grab (50, 80) (10, 20)).2.2 (by decide) (by decide)
  · exact (c8_capture_area_normalization c8grab (10, 20) (10, 25)).2.1 (by decide)

/-- C5: along every interleaving of producer and worker events reachable
from startup, at most `workerCount = 1` request is being solved at any
time, and finished, in-flight and still-buffered requests together read
back exactly the arrival order (FIFO, no skipping, no reordering). -/
theorem c5_single_flight_fifo (s : PipeState) (h : PipeReachable s) :
    s.inFlight.length ≤ workerCount ∧
    s.done ++ s.inFlight ++ s.pending = s.arrivals := by
  induction h with
  | refl => simp [initPipeState, workerCount]
  | @tail t u _ hstep ih =>
    obtain ⟨ih1, ih2⟩ := ih
    cases hstep with
    | enqueue r =>
      refine ⟨ih1, ?_⟩
      show t.done ++ t.inFlight ++ (t.pending ++ [r]) = t.arrivals ++ [r]
      rw [← ih2]
      simp [List.append_assoc]
    | take r rest _ hp hlt =>
      constructor
      · show (t.inFlight ++ [r]).length ≤ workerCount
        simp only [List.length_append, List.length_singleton]
        omega
      · show t.done ++ (t.inFlight ++ [r]) ++ rest = t.arrivals
        rw [← ih2, hp]
        simp [List.append_assoc]
    | finish r rest _ hf =>
      constructor
      · show rest.length ≤ workerCount
        rw [hf] at ih1
        simp only [List.length_cons] at ih1
        omega
      · show t.done ++ [r] ++ rest ++ t.pending = t.arrivals
        rw [← ih2, hf]
        simp [List.append_assoc]

/-- Witness for C5: the state reached by enqueuing requests 0 and 1 and
letting the worker take request 0. -/
theorem c5_witness :
    ([(0 : Nat)].length ≤ workerCount) ∧
    ([] : List Nat) ++ [0] ++ [1] = [0, 1] := by
  have h0 : PipeStep initPipeState ⟨[0], [0], [], []⟩ := by
    have := PipeStep.enqueue 0 initPipeState
    simpa [initPipeState] using this
  have h1 : PipeStep ⟨[0], [0], [], []⟩ ⟨[0, 1], [0, 1], [], []⟩ := by
    have := PipeStep.enqueue 1 (⟨[0], [0], [], []⟩ : PipeState)
    simpa using this
  have h2 : PipeStep ⟨[0, 1], [0, 1], [], []⟩ ⟨[0, 1], [1], [0], []⟩ := by
    have := PipeStep.take 0 [1] (⟨[0, 1], [0, 1], [], []⟩ : PipeState) rfl
      (by simp [workerCount])
    simpa using this
  have hreach : PipeReachable ⟨[0, 1], [1], [0], []⟩ :=
    Relation.ReflTransGen.tail
      (Relation.ReflTransGen.tail (Relation.ReflTransGen.single h0) h1) h2
  have h := c5_single_flight_fifo ⟨[0, 1], [1], [0], []⟩ hreach
  simpa using h

/-- C6 evaluation: `type_naturally` emits every character of the text; the
emitted event sequence is a function of the text alone, because the
emitter never consults `state.is_typing` (it has no access to the state at
all), so after the cancel command the whole remaining tail is still typed. -/
theorem c6_emitter_ignores_cancel :
    type_naturally_events ("abcdef").toList
      = (("abcdef").toList).map KeyEvent.typed ∧
    (type_naturally_events ("abcdef").toList).length = 6 := by
  constructor <;> decide

/-- C7 counterexample: when the unguarded tkinter call in
`_start_area_capture` raises, `capturing` has already been set and stays
`true`; no mouse listener was subscribed, so the only clearing path
(`on_mouse_click` release) can never run.  The claim that every path
setting the flag has a matching clearing path is therefore false. -/
theorem c7_counterexample :
    (start_area_capture false initState).1.capturing = true ∧
    (start_area_capture false initState).1.mouseListeners = 0 ∧
    (start_area_capture false initState).2 = false := by
  decide

/-- C7 (amended): the `typing` flag is indeed cleared on every exit of the
emitter worker — normal completion and emitter error alike, via the
`finally` clause — and `capturing` is cleared on the drag-release path;
but an overlay-creation failure leaves `capturing` stuck `true` (see the
counterexample), so only these clearing paths exist. -/
theorem c7_flags_cleared (ok : Bool) (s s2 : AppState) (x y : Int)
    (hcap : s2.capturing = true) :
    (type_code_session ok s).state.is_typing = false ∧
    (on_mouse_click s2 x y true false).state.capturing = false := by
  constructor
  · cases ok <;> simp [type_code_session]
  · simp [on_mouse_click, hcap]

/-- Witness for C7 at a concrete failing emitter and a concrete
mid-capture state. -/
theorem c7_witness :
    (type_code_session false initState).state.is_typing = false ∧
    (on_mouse_click { initState with capturing := true } 5 7 true false).state.capturing
      = false :=
  c7_flags_cleared false initState { initState with capturing := true } 5 7 rfl

/-- C9 counterexample: a second begin-area-capture while `capturing` is
already `true` is not ignored — the session state changes and a second
overlay and a second mouse subscription are created. -/
theorem c9_counterexample :
    (start_area_capture true initState).1.capturing = true ∧
    (start_area_capture true (start_area_capture true initState).1).1
      ≠ (start_area_capture true initState).1 ∧
    (start_area_capture true (start_area_capture true initState).1).1.overlayGen = 2 ∧
    (start_area_capture true (start_area_capture true initState).1).1.mouseListeners = 2 := by
  decide

/-- C9 (amended): `_start_area_capture` has no in-progress guard: invoked
while `capturing` is `true` it re-runs initialization — `capturing` is set
again, a fresh overlay replaces the current one, and one more mouse
subscription is spawned. -/
theorem c9_restart_not_ignored (s : AppState) (hcap : s.capturing = true) :
    (start_area_capture true s).1.capturing = true ∧
    (start_area_capture true s).1.overlayGen = s.overlayGen + 1 ∧
    (start_area_capture true s).1.overlay = some (s.overlayGen + 1) ∧
    (start_area_capture true s).1.mouseListeners = s.mouseListeners + 1 := by
  simp [start_area_capture, create_overlay]

theorem solve_success_parts (svc : Gen) (img : PILImage) (t1 t2 t3 : PyStr)
    (h1 : svc INITIAL_ANALYSIS_PROMPT (rgbaConvert img) = .ok t1)
    (h2 : svc (refinement_prompt (clean_code t1)) (rgbaConvert img) = .ok t2)
    (h3 : svc (optimization_prompt (clean_code t2)) (rgbaConvert img) = .ok t3) :
    (solve_with_iterations svc img 3).solution = some (clean_code t3) ∧
    (solve_with_iterations svc img 3).iterations
      = [clean_code t1, clean_code t2, clean_code t3] ∧
    (solve_with_iterations svc img 3).prompts
      = [INITIAL_ANALYSIS_PROMPT, refinement_prompt (clean_code t1),
         optimization_prompt (clean_code t2)] := by
  simp [solve_with_iterations, h1, h2, h3]

theorem solve_fail_shape (svc : Gen) (img : PILImage) (n : Nat)
    (hfail : (solve_with_iterations svc img n).solution = none) :
    (solve_with_iterations svc img n).iterations = [] ∧
    ∃ e, errSolveLine e ∈ (solve_with_iterations svc img n).log := by
  rcases hc1 : svc INITIAL_ANALYSIS_PROMPT (rgbaConvert img) with e1 | r1
  · exact ⟨by simp [solve_with_iterations, hc1],
           e1, by simp [solve_with_iterations, hc1]⟩
  · by_cases hn1 : n > 1
    · rcases hc2 : svc (refinement_prompt (clean_code r1)) (rgbaConvert img) with e2 | r2
      · exact ⟨by simp [solve_with_iterations, hc1, hn1, hc2],
               e2, by simp [solve_with_iterations, hc1, hn1, hc2]⟩
      · by_cases hn2 : n > 2
        · rcases hc3 : svc (optimization_prompt (clean_code r2)) (rgbaConvert img) with e3 | r3
          · exact ⟨by simp [solve_with_iterations, hc1, hn1, hc2, hn2, hc3],
                   e3, by simp [solve_with_iterations, hc1, hn1, hc2, hn2, hc3]⟩
          · exact absurd hfail
              (by simp [solve_with_iterations, hc1, hn1, hc2, hn2, hc3])
        · exact absurd hfail (by simp [solve_with_iterations, hc1, hn1, hc2, hn2])
    · exact absurd hfail (by simp [solve_with_iterations, hc1, hn1])

theorem solve_solution_last (svc : Gen) (img : PILImage) (sol : PyStr)
    (h : (solve_with_iterations svc img 3).solution = some sol) :
    (solve_with_iterations svc img 3).iterations.getLast? = some sol := by
  rcases hc1 : svc INITIAL_ANALYSIS_PROMPT (rgbaConvert img) with e1 | r1
  · simp [solve_with_iterations, hc1] at h
  · rcases hc2 : svc (refinement_prompt (clean_code r1)) (rgbaConvert img) with e2 | r2
    · simp [solve_with_iterations, hc1, hc2] at h
    · rcases hc3 : svc (optimization_prompt (clean_code r2)) (rgbaConvert img) with e3 | r3
      · simp [solve_with_iterations, hc1, hc2, hc3] at h
      · simp [solve_with_iterations, hc1, hc2, hc3] at h ⊢
        simp [h]

theorem process_problem_fail (svc : Gen) (s : AppState) (img : PILImage)
    (hfail : (solve_with_iterations svc img 3).solution = none) :
    (process_problem svc s img).state = { s with problem_image := some img } ∧
    ∃ e, errSolveLine e ∈ (process_problem svc s img).log := by
  obtain ⟨_, e, he⟩ := solve_fail_shape svc img 3 hfail
  exact ⟨by simp [process_problem, hfail], e, by simp [process_problem, hfail, he]⟩

theorem process_problem_empty (svc : Gen) (s : AppState) (img : PILImage)
    (hsol : (solve_with_iterations svc img 3).solution = some []) :
    (process_problem svc s img).state = { s with problem_image := some img } := by
  simp [process_problem, hsol]

theorem process_problem_success (svc : Gen) (s : AppState) (img : PILImage) (sol : PyStr)
    (hsol : (solve_with_iterations svc img 3).solution = some sol) (hne : sol ≠ []) :
    (process_problem svc s img).state =
      { s with problem_image := some img, response_text := sol,
               iteration_history := (solve_with_iterations svc img 3).iterations } := by
  simp [process_problem, hsol, List.isEmpty_iff, hne]

/-- C2: a service failure during a fresh-image solve leaves the prior
`response_text` untouched, prints the error line, and the worker simply
continues draining the remaining queue items — processing an item is
total, so the loop never terminates the process. -/
theorem c2_service_failure_is_recoverable (svc : Gen) (grab : GrabFn) (s : AppState)
    (img : PILImage) (item : QueueItem)
    (hitem : item = QueueItem.window (some img) ∨ item = QueueItem.clipboard (some img))
    (hfail : (solve_with_iterations svc img 3).solution = none) :
    (processQueueStep svc grab s item).state.response_text = s.response_text ∧
    (∃ e, errSolveLine e ∈ (processQueueStep svc grab s item).log) ∧
    (∀ rest : List QueueItem,
      process_queue svc grab s (item :: rest)
        = process_queue svc grab (processQueueStep svc grab s item).state rest) := by
  have hpp := process_problem_fail svc s img hfail
  rcases hitem with h | h <;> subst h
  · refine ⟨?_, hpp.2, fun rest => rfl⟩
    show (process_problem svc s img).state.response_text = s.response_text
    rw [hpp.1]
  · refine ⟨?_, hpp.2, fun rest => rfl⟩
    show (process_problem svc s img).state.response_text = s.response_text
    rw [hpp.1]

def c2svcFail : Gen := fun _ _ => Except.error ("boom").toList

def c2grab : GrabFn := fun _ => none

def c2state : AppState := { initState with response_text := ("prev").toList }

def c2img : PILImage := ⟨"RGB".toList, 3⟩

/-- Witness for C2: a concrete always-failing service. -/
theorem c2_witness :
    (processQueueStep c2svcFail c2grab c2state
        (QueueItem.clipboard (some c2img))).state.response_text = c2state.response_text ∧
    (∃ e, errSolveLine e ∈
      (processQueueStep c2svcFail c2grab c2state (QueueItem.clipboard (some c2img))).log) ∧
    process_queue c2svcFail c2grab c2state [QueueItem.clipboard (some c2img)]
      = process_queue c2svcFail c2grab
          (processQueueStep c2svcFail c2grab c2state
            (QueueItem.clipboard (some c2img))).state [] := by
  have h := c2_service_failure_is_recoverable c2svcFail c2grab c2state c2img
      (QueueItem.clipboard (some c2img)) (Or.inr rfl) rfl
  exact ⟨h.1, h.2.1, h.2.2 []⟩

def c1svcEmpty : Gen := fun _ _ => Except.ok []

def c1preState : AppState := { initState with response_text := ("prev").toList }

def c1img : PILImage := ⟨"RGB".toList, 0⟩

/-- C1 counterexample: with the three service round-trips all returning
the empty text — which is already clean — the claimed postcondition
`response_text = t3` fails: the Python truthiness test `if solution:`
treats the empty final text as a failure and keeps the prior solution. -/
theorem c1_counterexample :
    clean_code [] = ([] : PyStr) ∧
    (process_problem c1svcEmpty c1preState c1img).state.response_text = ("prev").toList ∧
    ("prev").toList ≠ ([] : PyStr) := by
  refine ⟨by decide, ?_, by decide⟩
  rfl

/-- C1 (amended): for a fresh image solved with the default pass count 3
and already-clean service responses `t1, t2, t3` with `t3` non-empty, the
solve ends with `response_text = t3` and `iteration_history = [t1,t2,t3]`,
and the three passes are issued in the fixed order initial-analysis,
review, optimization, none skipped. -/
theorem c1_three_pass_fresh_solve (svc : Gen) (s : AppState) (img : PILImage)
    (t1 t2 t3 : PyStr)
    (h1 : svc INITIAL_ANALYSIS_PROMPT (rgbaConvert img) = .ok t1)
    (hc1 : clean_code t1 = t1)
    (h2 : svc (refinement_prompt t1) (rgbaConvert img) = .ok t2)
    (hc2 : clean_code t2 = t2)
    (h3 : svc (optimization_prompt t2) (rgbaConvert img) = .ok t3)
    (hc3 : clean_code t3 = t3)
    (hne : t3 ≠ []) :
    (process_problem svc s img).state.response_text = t3 ∧
    (process_problem svc s img).state.iteration_history = [t1, t2, t3] ∧
    (solve_with_iterations svc img 3).prompts
      = [INITIAL_ANALYSIS_PROMPT, refinement_prompt t1, optimization_prompt t2] := by
  have hs := solve_success_parts svc img t1 t2 t3 h1 (by rw [hc1]; exact h2)
    (by rw [hc2]; exact h3)
  rw [hc1, hc2, hc3] at hs
  obtain ⟨hsol, hits, hpr⟩ := hs
  have hst := process_problem_success svc s img t3 hsol hne
  refine ⟨?_, ?_, hpr⟩
  · rw [hst]
  · rw [hst]
    exact hits

def c1svcOk : Gen := fun p _ =>
  match p with
  | 'Y' :: _ => Except.ok ("sol-v1").toList
  | 'R' :: _ => Except.ok ("sol-v2").toList
  | _ => Except.ok ("sol-v3").toList

/-- Witness for C1 at the spec test vector: fake responses
`sol-v1, sol-v2, sol-v3`. -/
theorem c1_witness :
    clean_code ("sol-v1").toList = ("sol-v1").toList ∧
    ("sol-v3").toList ≠ ([] : PyStr) ∧
    (process_problem c1svcOk initState c1img).state.response_text = ("sol-v3").toList ∧
    (process_problem c1svcOk initState c1img).state.iteration_history
      = [("sol-v1").toList, ("sol-v2").toList, ("sol-v3").toList] ∧
    (solve_with_iterations c1svcOk c1img 3).prompts
      = [INITIAL_ANALYSIS_PROMPT, refinement_prompt ("sol-v1").toList,
         optimization_prompt ("sol-v2").toList] := by
  have h := c1_three_pass_fresh_solve c1svcOk initState c1img
      ("sol-v1").toList ("sol-v2").toList ("sol-v3").toList
      rfl (by decide) rfl (by decide) rfl (by decide) (by decide)
  exact ⟨by decide, by decide, h.1, h.2.1, h.2.2⟩

/-- The re-established invariant of C10: whenever the iteration history is
non-empty, `response_text` is its last entry. -/
def solutionInv (s : AppState) : Prop :=
  s.iteration_history = [] ∨ s.iteration_history.getLast? = some s.response_text

theorem process_problem_inv (svc : Gen) (s : AppState) (img : PILImage)
    (hinv : solutionInv s) : solutionInv (process_problem svc s img).state := by
  rcases hsol : (solve_with_iterations svc img 3).solution with _ | sol
  · rw [(process_problem_fail svc s img hsol).1]
    simpa [solutionInv] using hinv
  · by_cases hne : sol = []
    · subst hne
      rw [process_problem_empty svc s img hsol]
      simpa [solutionInv] using hinv
    · rw [process_problem_success svc s img sol hsol hne]
      exact Or.inr (solve_solution_last svc img sol hsol)

theorem dropWhile_self (p : Char → Bool) (l : PyStr) :
    (l.dropWhile p).dropWhile p = l.dropWhile p := by
  induction l with
  | nil => rfl
  | cons c t ih =>
    by_cases h : p c
    · simp [List.dropWhile_cons, h, ih]
    · simp [List.dropWhile_cons, h]

theorem dropWhile_length_le (p : Char → Bool) (l : PyStr) :
    (l.dropWhile p).length ≤ l.length := by
  induction l with
  | nil => simp
  | cons c t ih =>
    by_cases h : p c
    · simp only [List.dropWhile_cons, h, if_true, List.length_cons]
      omega
    · simp [List.dropWhile_cons, h]

theorem dropWhile_eq_self_left (p : Char → Bool) (a b : PyStr)
    (h : (a ++ b).dropWhile p = a ++ b) : a.dropWhile p = a := by
  cases a with
  | nil => rfl
  | cons c t =>
    by_cases hc : p c
    · exfalso
      have hlen := congrArg List.length h
      rw [List.cons_append, List.dropWhile_cons] at hlen
      simp only [hc, if_true, List.length_cons] at hlen
      have hle := dropWhile_length_le p (t ++ b)
      omega
    · simp [List.dropWhile_cons, hc]

theorem reverse_take_drop (p : Char → Bool) (m : PyStr) :
    m = (m.reverse.dropWhile p).reverse ++ (m.reverse.takeWhile p).reverse := by
  conv_lhs => rw [← List.reverse_reverse m, ← List.takeWhile_append_dropWhile p m.reverse]
  rw [List.reverse_append]

theorem pyStrip_idem (s : PyStr) : pyStrip (pyStrip s) = pyStrip s := by
  have hmm : (s.dropWhile ws).dropWhile ws = s.dropWhile ws := dropWhile_self ws s
  have hb : (((s.dropWhile ws).reverse.dropWhile ws).reverse).dropWhile ws
      = ((s.dropWhile ws).reverse.dropWhile ws).reverse := by
    apply dropWhile_eq_self_left ws _ ((s.dropWhile ws).reverse.takeWhile ws).reverse
    rw [← reverse_take_drop ws (s.dropWhile ws)]
    exact hmm
  show stripBack ((stripBack (s.dropWhile ws)).dropWhile ws) = stripBack (s.dropWhile ws)
  unfold stripBack
  rw [hb, List.reverse_reverse, dropWhile_self]

theorem splitLines_ne_nil (s : PyStr) : splitLines s ≠ [] := by
  cases s with
  | nil => simp [splitLines]
  | cons c rest =>
    simp only [splitLines]
    rcases h : splitLines rest with _ | ⟨l, ls⟩
    · simp
    · by_cases hc : c = '\n' <;> simp [hc]

theorem splitLines_cons_eq (c : Char) (rest : PyStr) (l : PyStr) (ls : List PyStr)
    (h : splitLines rest = l :: ls) :
    splitLines (c :: rest) = if c = '\n' then [] :: l :: ls else (c :: l) :: ls := by
  simp [splitLines, h]

theorem joinLines_splitLines (s : PyStr) : joinLines (splitLines s) = s := by
  induction s with
  | nil => rfl
  | cons c rest ih =>
    rcases List.exists_cons_of_ne_nil (splitLines_ne_nil rest) with ⟨l, ls, h⟩
    rw [h] at ih
    rw [splitLines_cons_eq c rest l ls h]
    by_cases hc : c = '\n'
    · subst hc
      rw [if_pos rfl]
      show '\n' :: joinLines (l :: ls) = '\n' :: rest
      rw [ih]
    · rw [if_neg hc]
      cases ls with
      | nil =>
        show c :: l = c :: rest
        simpa [joinLines] using ih
      | cons l2 rs =>
        show (c :: l) ++ '\n' :: joinLines (l2 :: rs) = c :: rest
        have : l ++ '\n' :: joinLines (l2 :: rs) = rest := ih
        simp [← this]

theorem splitLines_no_newline (s : PyStr) : ∀ l ∈ splitLines s, '\n' ∉ l := by
  induction s with
  | nil =>
    intro l hl
    simp [splitLines] at hl
    simp [hl]
  | cons c rest ih =>
    rcases List.exists_cons_of_ne_nil (splitLines_ne_nil rest) with ⟨l0, ls, h⟩
    intro l hl
    rw [splitLines_cons_eq c rest l0 ls h] at hl
    by_cases hc : c = '\n'
    · rw [if_pos hc] at hl
      rcases List.mem_cons.mp hl with rfl | hm
      · simp
      · exact ih l (h ▸ hm)
    · rw [if_neg hc] at hl
      rcases List.mem_cons.mp hl with rfl | hm
      · intro hmem
        rcases List.mem_cons.mp hmem with heq | hm2
        · exact hc heq.symm
        · exact ih l0 (h ▸ List.mem_cons_self l0 ls) hm2
      · exact ih l (h ▸ List.mem_cons_of_mem l0 hm)

theorem splitLines_single (l : PyStr) (h : '\n' ∉ l) : splitLines l = [l] := by
  induction l with
  | nil => rfl
  | cons c t ih =>
    have hc : c ≠ '\n' := fun he => h (he ▸ List.mem_cons_self c t)
    have ht : '\n' ∉ t := fun he => h (List.mem_cons_of_mem c he)
    rw [splitLines_cons_eq c t t [] (ih ht), if_neg hc]

theorem splitLines_append_nl (l r : PyStr) (h : '\n' ∉ l) :
    splitLines (l ++ '\n' :: r) = l :: splitLines r := by
  induction l with
  | nil =>
    rcases List.exists_cons_of_ne_nil (splitLines_ne_nil r) with ⟨l0, ls, hr⟩
    rw [List.nil_append, splitLines_cons_eq '\n' r l0 ls hr, if_pos rfl, ← hr]
  | cons c t ih =>
    have hc : c ≠ '\n' := fun he => h (he ▸ List.mem_cons_self c t)
    have ht : '\n' ∉ t := fun he => h (List.mem_cons_of_mem c he)
    have ih2 := ih ht
    rcases List.exists_cons_of_ne_nil (splitLines_ne_nil r) with ⟨l0, ls, hr⟩
    rw [List.cons_append, splitLines_cons_eq c (t ++ '\n' :: r) t (splitLines r) ih2,
      if_neg hc]

theorem splitLines_joinLines (ls : List PyStr) (hne : ls ≠ [])
    (h : ∀ l ∈ ls, '\n' ∉ l) : splitLines (joinLines ls) = ls := by
  induction ls with
  | nil => exact absurd rfl hne
  | cons l rest ih =>
    cases rest with
    | nil => exact splitLines_single l (h l (List.mem_cons_self l []))
    | cons l2 rs =>
      show splitLines (l ++ '\n' :: joinLines (l2 :: rs)) = l :: l2 :: rs
      rw [splitLines_append_nl l _ (h l (List.mem_cons_self l (l2 :: rs)))]
      rw [ih (by simp) (fun a ha => h a (List.mem_cons_of_mem l ha))]

theorem mem_joinLines_decomp (l0 : PyStr) (ls : List PyStr) (h : l0 ∈ ls) :
    ∃ a b, joinLines ls = a ++ (l0 ++ b) := by
  induction ls with
  | nil => cases h
  | cons l rest ih =>
    rcases List.mem_cons.mp h with rfl | hmem
    · cases rest with
      | nil => exact ⟨[], [], by simp [joinLines]⟩
      | cons l2 rs =>
        exact ⟨[], '\n' :: joinLines (l2 :: rs), by simp [joinLines]⟩
    · cases rest with
      | nil => cases hmem
      | cons l2 rs =>
        rcases ih hmem with ⟨a, b, hab⟩
        refine ⟨l ++ '\n' :: a, b, ?_⟩
        show l ++ '\n' :: joinLines (l2 :: rs) = (l ++ '\n' :: a) ++ (l0 ++ b)
        rw [hab]
        simp

theorem mem_splitLines_decomp (s l0 : PyStr) (h : l0 ∈ splitLines s) :
    ∃ a b, s = a ++ (l0 ++ b) := by
  rcases mem_joinLines_decomp l0 (splitLines s) h with ⟨a, b, hab⟩
  exact ⟨a, b, by rw [← joinLines_splitLines s, hab]⟩

theorem pyStrip_decomp (l : PyStr) : ∃ a b, l = a ++ (pyStrip l ++ b) := by
  refine ⟨l.takeWhile ws, ((l.dropWhile ws).reverse.takeWhile ws).reverse, ?_⟩
  conv_lhs => rw [← List.takeWhile_append_dropWhile ws l]
  congr 1
  exact reverse_take_drop ws (l.dropWhile ws)

theorem isPre_append_right (p m b : PyStr) (h : isPre p m = true) :
    isPre p (m ++ b) = true := by
  induction p generalizing m with
  | nil => rfl
  | cons a as ih =>
    cases m with
    | nil => cases h
    | cons x xs =>
      simp only [isPre, Bool.and_eq_true, beq_iff_eq] at h ⊢
      exact ⟨h.1, ih xs h.2⟩

theorem containsSub_of_isPre (pat m : PyStr) (h : isPre pat m = true) :
    containsSub pat m = true := by
  cases m with
  | nil => simpa [containsSub] using h
  | cons c t => simp [containsSub, h]

theorem containsSub_append_left (pat a m : PyStr) (h : containsSub pat m = true) :
    containsSub pat (a ++ m) = true := by
  induction a with
  | nil => simpa using h
  | cons c t ih => simp [containsSub, ih]

theorem containsSub_middle (pat a m b : PyStr) (h : isPre pat m = true) :
    containsSub pat (a ++ (m ++ b)) = true :=
  containsSub_append_left pat a (m ++ b)
    (containsSub_of_isPre pat (m ++ b) (isPre_append_right pat m b h))

theorem pyStrip_cons_ws (c : Char) (l : PyStr) (h : ws c = true) :
    pyStrip (c :: l) = pyStrip l := by
  simp [pyStrip, List.dropWhile_cons, h]

theorem stripBack_append_ws (l : PyStr) (c : Char) (h : ws c = true) :
    stripBack (l ++ [c]) = stripBack l := by
  unfold stripBack
  rw [List.reverse_append]
  simp [List.dropWhile_cons, h]

theorem stripBack_append_not_ws (l : PyStr) (c : Char) (h : ws c = false) :
    stripBack (l ++ [c]) = l ++ [c] := by
  unfold stripBack
  rw [List.reverse_append]
  simp [List.dropWhile_cons, h]

theorem pyStrip_append_ws (l : PyStr) (c : Char) (h : ws c = true) :
    pyStrip (l ++ [c]) = pyStrip l := by
  unfold pyStrip
  rw [List.dropWhile_append]
  by_cases he : (l.dropWhile ws).isEmpty
  · rw [if_pos he]
    have h1 : List.dropWhile ws [c] = [] := by simp [List.dropWhile_cons, h]
    have h2 : l.dropWhile ws = [] := by simpa using he
    rw [h1, h2]
  · rw [if_neg he]
    exact stripBack_append_ws _ c h

/-- Applies `f` to the last element of a list only. -/
def mapLast (f : PyStr → PyStr) : List PyStr → List PyStr
  | [] => []
  | [l] => [f l]
  | l :: l2 :: ls => l :: mapLast f (l2 :: ls)

theorem splitLines_append_newline (a : PyStr) :
    splitLines (a ++ ['\n']) = splitLines a ++ [[]] := by
  induction a with
  | nil => rfl
  | cons c t ih =>
    rcases List.exists_cons_of_ne_nil (splitLines_ne_nil t) with ⟨l, ls, h⟩
    have hsh : splitLines (t ++ ['\n']) = l :: (ls ++ [[]]) := by
      rw [ih, h]
      rfl
    rw [List.cons_append, splitLines_cons_eq c (t ++ ['\n']) l (ls ++ [[]]) hsh,
        splitLines_cons_eq c t l ls h]
    by_cases hc : c = '\n' <;> simp [hc]

theorem splitLines_append_char (a : PyStr) (c : Char) (hc : c ≠ '\n') :
    splitLines (a ++ [c]) = mapLast (fun l => l ++ [c]) (splitLines a) := by
  induction a with
  | nil => simp [splitLines, mapLast, hc]
  | cons x t ih =>
    rcases List.exists_cons_of_ne_nil (splitLines_ne_nil t) with ⟨l, ls, ht⟩
    rcases List.exists_cons_of_ne_nil (splitLines_ne_nil (t ++ [c])) with ⟨m, ms, htc⟩
    have key : mapLast (fun l => l ++ [c]) (l :: ls) = m :: ms := by
      rw [← ht, ← ih, htc]
    rw [List.cons_append, splitLines_cons_eq x (t ++ [c]) m ms htc,
        splitLines_cons_eq x t l ls ht]
    by_cases hx : x = '\n'
    · rw [if_pos hx, if_pos hx]
      show ([] : PyStr) :: m :: ms = mapLast (fun l => l ++ [c]) ([] :: l :: ls)
      rw [show mapLast (fun l => l ++ [c]) (([] : PyStr) :: l :: ls)
          = [] :: mapLast (fun l => l ++ [c]) (l :: ls) from rfl, key]
    · rw [if_neg hx, if_neg hx]
      cases ls with
      | nil =>
        simp only [mapLast] at key
        injection key with k1 k2
        show (x :: m) :: ms = [(x :: l) ++ [c]]
        rw [← k1, ← k2]
        simp
      | cons y ys =>
        simp only [mapLast] at key
        injection key with k1 k2
        show (x :: m) :: ms = (x :: l) :: mapLast (fun l => l ++ [c]) (y :: ys)
        rw [← k1, ← k2]

theorem mem_mapLast (f : PyStr → PyStr) (ls : List PyStr) (l : PyStr) (h : l ∈ ls) :
    l ∈ mapLast f ls ∨ f l ∈ mapLast f ls := by
  induction ls with
  | nil => cases h
  | cons a rest ih =>
    cases rest with
    | nil =>
      rcases List.mem_cons.mp h with rfl | hm
      · right
        simp [mapLast]
      · cases hm
    | cons b bs =>
      rcases List.mem_cons.mp h with rfl | hm
      · left
        rw [show mapLast f (l :: b :: bs) = l :: mapLast f (b :: bs) from rfl]
        exact List.mem_cons_self _ _
      · rcases ih hm with h1 | h1
        · left
          rw [show mapLast f (a :: b :: bs) = a :: mapLast f (b :: bs) from rfl]
          exact List.mem_cons_of_mem a h1
        · right
          rw [show mapLast f (a :: b :: bs) = a :: mapLast f (b :: bs) from rfl]
          exact List.mem_cons_of_mem a h1

/-- No line of `s` (in the Python `split` sense) is a fence-marker line. -/
def noFenceLines (s : PyStr) : Prop := ∀ l ∈ splitLines s, isFenceLine l = false

theorem noFenceLines_tail_ws (c : Char) (rest : PyStr) (hc : ws c = true)
    (h : noFenceLines (c :: rest)) : noFenceLines rest := by
  intro l hl
  rcases List.exists_cons_of_ne_nil (splitLines_ne_nil rest) with ⟨l0, ls, hr⟩
  by_cases hcn : c = '\n'
  · apply h l
    rw [splitLines_cons_eq c rest l0 ls hr, if_pos hcn]
    exact List.mem_cons_of_mem [] (hr ▸ hl)
  · rw [hr] at hl
    rcases List.mem_cons.mp hl with rfl | hm
    · have h2 : isFenceLine (c :: l) = false := by
        apply h
        rw [splitLines_cons_eq c rest l ls hr, if_neg hcn]
        exact List.mem_cons_self _ _
      unfold isFenceLine at h2 ⊢
      rwa [pyStrip_cons_ws c l hc] at h2
    · apply h l
      rw [splitLines_cons_eq c rest l0 ls hr, if_neg hcn]
      exact List.mem_cons_of_mem _ hm

theorem noFenceLines_dropWhile (t : PyStr) :
    noFenceLines t → noFenceLines (t.dropWhile ws) := by
  induction t with
  | nil => intro h; simpa using h
  | cons c rest ih =>
    intro h
    by_cases hc : ws c
    · rw [List.dropWhile_cons, if_pos hc]
      exact ih (noFenceLines_tail_ws c rest hc h)
    · rw [List.dropWhile_cons, if_neg hc]
      exact h

theorem noFenceLines_init_ws (a : PyStr) (c : Char) (hws : ws c = true)
    (h : noFenceLines (a ++ [c])) : noFenceLines a := by
  by_cases hc : c = '\n'
  · subst hc
    intro l hl
    apply h l
    rw [splitLines_append_newline a]
    exact List.mem_append_left _ hl
  · intro l hl
    rcases mem_mapLast (fun l => l ++ [c]) (splitLines a) l hl with hm | hm
    · apply h l
      rw [splitLines_append_char a c hc]
      exact hm
    · have h2 : isFenceLine (l ++ [c]) = false := by
        apply h
        rw [splitLines_append_char a c hc]
        exact hm
      unfold isFenceLine at h2 ⊢
      rwa [pyStrip_append_ws l c hws] at h2

theorem noFenceLines_stripBack (t : PyStr) :
    noFenceLines t → noFenceLines (stripBack t) := by
  induction t using List.reverseRecOn with
  | nil => intro h; simpa [stripBack] using h
  | append_singleton a c ih =>
    intro h
    by_cases hc : ws c
    · rw [stripBack_append_ws a c hc]
      exact ih (noFenceLines_init_ws a c hc h)
    · rw [stripBack_append_not_ws a c (by simpa using hc)]
      exact h

theorem noFenceLines_pyStrip (t : PyStr) (h : noFenceLines t) :
    noFenceLines (pyStrip t) :=
  noFenceLines_stripBack _ (noFenceLines_dropWhile t h)

theorem isFenceLine_nil : isFenceLine [] = false := by decide

theorem noFenceLines_joinLines_filter (lines : List PyStr)
    (hnl : ∀ l ∈ lines, '\n' ∉ l) :
    noFenceLines (joinLines (lines.filter (fun l => !(isFenceLine l)))) := by
  intro l hl
  rcases hk : lines.filter (fun l => !(isFenceLine l)) with _ | ⟨k, ks⟩
  · rw [hk] at hl
    simp only [joinLines, splitLines] at hl
    rcases List.mem_cons.mp hl with rfl | hfalse
    · exact isFenceLine_nil
    · cases hfalse
  · rw [hk] at hl
    rw [splitLines_joinLines (k :: ks) (by simp)
      (fun a ha => hnl a (List.mem_of_mem_filter (hk ▸ ha)))] at hl
    have hmem : l ∈ lines.filter (fun l => !(isFenceLine l)) := by
      rw [hk]
      exact hl
    have := List.of_mem_filter hmem
    simpa using this

theorem cleanLoop_eq_filter (b : Bool) (ls : List PyStr) :
    cleanLoop b ls = ls.filter (fun l => !(isFenceLine l)) := by
  induction ls generalizing b with
  | nil => rfl
  | cons l rest ih =>
    by_cases h : isFenceLine l
    · simp [cleanLoop, h, List.filter_cons, ih]
    · cases b <;> simp [cleanLoop, h, List.filter_cons, ih]

theorem clean_code_eq_of_fence (text : PyStr)
    (h : containsSub fence (pyStrip text) = true) :
    clean_code text =
      pyStrip (joinLines
        ((splitLines (pyStrip text)).filter (fun l => !(isFenceLine l)))) := by
  simp [clean_code, h, cleanLoop_eq_filter]

theorem clean_code_eq_of_no_fence (text : PyStr)
    (h : containsSub fence (pyStrip text) = false) :
    clean_code text = pyStrip (pyStrip text) := by
  simp [clean_code, h]

theorem clean_code_fixpoint (y : PyStr) (hstrip : pyStrip y = y) (hnf : noFenceLines y) :
    clean_code y = y := by
  by_cases h : containsSub fence (pyStrip y) = true
  · rw [clean_code_eq_of_fence y h, hstrip]
    rw [List.filter_eq_self.mpr (fun l hl => by simp [hnf l hl])]
    rw [joinLines_splitLines, hstrip]
  · rw [clean_code_eq_of_no_fence y (by simpa using h), hstrip, hstrip]

theorem pyStrip_clean_code (x : PyStr) : pyStrip (clean_code x) = clean_code x := by
  by_cases h : containsSub fence (pyStrip x) = true
  · rw [clean_code_eq_of_fence x h]
    exact pyStrip_idem _
  · rw [clean_code_eq_of_no_fence x (by simpa using h)]
    exact pyStrip_idem _

theorem noFenceLines_clean_code (x : PyStr) : noFenceLines (clean_code x) := by
  by_cases h : containsSub fence (pyStrip x) = true
  · rw [clean_code_eq_of_fence x h]
    exact noFenceLines_pyStrip _
      (noFenceLines_joinLines_filter (splitLines (pyStrip x)) (splitLines_no_newline _))
  · rw [clean_code_eq_of_no_fence x (by simpa using h), pyStrip_idem]
    intro l hl
    by_contra hfl
    have hfl2 : isFenceLine l = true := by
      cases hb : isFenceLine l
      · exact absurd hb hfl
      · rfl
    unfold isFenceLine at hfl2
    rcases pyStrip_decomp l with ⟨a2, b2, hdec⟩
    rcases mem_splitLines_decomp (pyStrip x) l hl with ⟨a1, b1, hdec1⟩
    have hsub : containsSub fence (pyStrip x) = true := by
      rw [hdec1, hdec]
      have := containsSub_middle fence (a1 ++ a2) (pyStrip l) (b2 ++ b1) hfl2
      simpa [List.append_assoc] using this
    exact h hsub

theorem clean_code_idem (x : PyStr) : clean_code (clean_code x) = clean_code x :=
  clean_code_fixpoint _ (pyStrip_clean_code x) (noFenceLines_clean_code x)

/-- The precondition the spec attaches to idempotence: code-fence markers
are absent, or the fence-marker lines pair up (an even number of them). -/
def balancedOrAbsent (s : PyStr) : Prop :=
  containsSub fence (pyStrip s) = false ∨
    ((splitLines (pyStrip s)).filter (fun l => isFenceLine l)).length % 2 = 0

/-- C4: `clean_code` is idempotent on every text with balanced or absent
code-fence markers (the proof in fact never needs the precondition), so
cleaning already-clean text returns it unchanged. -/
theorem c4_clean_code_idempotent (x : PyStr) (h : balancedOrAbsent x) :
    clean_code (clean_code x) = clean_code x :=
  clean_code_idem x

/-- Witness for C4 on a balanced fenced text. -/
theorem c4_witness :
    balancedOrAbsent ("intro\n```\nprint(1)\n```\nbye").toList ∧
    clean_code (clean_code ("intro\n```\nprint(1)\n```\nbye").toList)
      = clean_code ("intro\n```\nprint(1)\n```\nbye").toList :=
  ⟨Or.inr (by decide), c4_clean_code_idempotent _ (Or.inr (by decide))⟩

/-- C3 counterexample: on an input whose first line is prose outside the
fences, `clean_code` keeps the prose while the spec says it must be
discarded; the two cleaning functions disagree. -/
theorem c3_counterexample :
    clean_code ("prose\n```\ncode\n```").toList = ("prose\ncode").toList ∧
    clean_code_specified ("prose\n```\ncode\n```").toList = ("code").toList ∧
    clean_code ("prose\n```\ncode\n```").toList
      ≠ clean_code_specified ("prose\n```\ncode\n```").toList := by
  refine ⟨by decide, by decide, by decide⟩

/-- C3 (amended): for every input containing fence markers, `clean_code`
removes exactly the fence-marker lines (the `in_block` bookkeeping of the
source is dead: its guard is always true for a non-marker line) and keeps
every other line in order — prose outside the fences included — then
strips whitespace at both ends. -/
theorem c3_clean_code_line_filter (text : PyStr)
    (h : containsSub fence (pyStrip text) = true) :
    clean_code text =
      pyStrip (joinLines
        ((splitLines (pyStrip text)).filter (fun l => !(isFenceLine l)))) :=
  clean_code_eq_of_fence text h

/-- Witness for C3 on a concrete fenced input with surrounding prose. -/
theorem c3_witness :
    containsSub fence (pyStrip ("intro\n```\nx = 2\n```\noutro").toList) = true ∧
    clean_code ("intro\n```\nx = 2\n```\noutro").toList =
      pyStrip (joinLines
        ((splitLines (pyStrip ("intro\n```\nx = 2\n```\noutro").toList)).filter
          (fun l => !(isFenceLine l)))) :=
  ⟨by decide, c3_clean_code_line_filter ("intro\n```\nx = 2\n```\noutro").toList (by decide)⟩

theorem solutionInv_destroy_overlay (s : AppState) (h : solutionInv s) :
    solutionInv (destroy_overlay s) := by
  unfold destroy_overlay
  split
  · simpa [solutionInv] using h
  · exact h

/-- C10: every queue operation preserves the invariant that a non-empty
`iteration_history` ends in `response_text`: successful fresh solves,
refines and feedback applications append and replace together, and a
failed fresh solve changes neither field. -/
theorem c10_history_last_invariant (svc : Gen) (grab : GrabFn) (item : QueueItem)
    (s : AppState) (hinv : solutionInv s) :
    solutionInv (processQueueStep svc grab s item).state ∧
    (∀ img : PILImage,
      (item = QueueItem.window (some img) ∨ item = QueueItem.clipboard (some img)) →
      (solve_with_iterations svc img 3).solution = none →
      (processQueueStep svc grab s item).state.response_text = s.response_text ∧
      (processQueueStep svc grab s item).state.iteration_history = s.iteration_history) := by
  cases item with
  | area =>
    have hd := solutionInv_destroy_overlay s hinv
    refine ⟨?_, ?_⟩
    · simp only [processQueueStep]
      rcases hsp : (destroy_overlay s).start_pos with _ | sp
      · simpa [hsp] using hd
      · rcases hep : (destroy_overlay s).end_pos with _ | ep
        · simpa [hsp, hep] using hd
        · simp only [hsp, hep]
          rcases hcap : capture_area grab sp ep with _ | im
          · simpa [hcap] using hd
          · simpa [hcap] using process_problem_inv svc (destroy_overlay s) im hd
    · intro img hit
      rcases hit with h | h <;> exact QueueItem.noConfusion h
  | window d =>
    cases d with
    | none =>
      refine ⟨hinv, ?_⟩
      intro img hit _
      rcases hit with h | h
      · simp at h
      · exact QueueItem.noConfusion h
    | some im =>
      refine ⟨process_problem_inv svc s im hinv, ?_⟩
      intro img hit hfail
      have him : im = img := by
        rcases hit with h | h
        · simpa using h
        · exact QueueItem.noConfusion h
      subst him
      have h := process_problem_fail svc s im hfail
      constructor
      · show (process_problem svc s im).state.response_text = s.response_text
        rw [h.1]
      · show (process_problem svc s im).state.iteration_history = s.iteration_history
        rw [h.1]
  | clipboard d =>
    cases d with
    | none =>
      refine ⟨hinv, ?_⟩
      intro img hit _
      rcases hit with h | h
      · exact QueueItem.noConfusion h
      · simp at h
    | some im =>
      refine ⟨process_problem_inv svc s im hinv, ?_⟩
      intro img hit hfail
      have him : im = img := by
        rcases hit with h | h
        · exact QueueItem.noConfusion h
        · simpa using h
      subst him
      have h := process_problem_fail svc s im hfail
      constructor
      · show (process_problem svc s im).state.response_text = s.response_text
        rw [h.1]
      · show (process_problem svc s im).state.iteration_history = s.iteration_history
        rw [h.1]
  | refine =>
    refine ⟨?_, ?_⟩
    · simp only [processQueueStep]
      rcases hpi : s.problem_image with _ | pi
      · simpa [hpi] using hinv
      · simp only [hpi]
        by_cases hrt : s.response_text.isEmpty
        · simpa [hrt] using hinv
        · rcases himp : (apply_user_feedback svc pi s.response_text refineInstruction).improved
            with _ | improved
          · simpa [hrt, himp] using hinv
          · by_cases hie : improved.isEmpty
            · simpa [hrt, himp, hie] using hinv
            · simp only [hrt, himp, hie]
              simp
              exact Or.inr (List.getLast?_concat _)
    · intro img hit
      rcases hit with h | h <;> exact QueueItem.noConfusion h
  | feedback txt =>
    refine ⟨?_, ?_⟩
    · simp only [processQueueStep]
      rcases hpi : s.problem_image with _ | pi
      · simpa [hpi] using hinv
      · simp only [hpi]
        by_cases hrt : s.response_text.isEmpty
        · simpa [hrt] using hinv
        · rcases himp : (apply_user_feedback svc pi s.response_text txt).improved
            with _ | improved
          · simpa [hrt, himp] using hinv
          · by_cases hie : improved.isEmpty
            · simpa [hrt, himp, hie] using hinv
            · simp only [hrt, himp, hie]
              simp
              exact Or.inr (List.getLast?_concat _)
    · intro img hit
      rcases hit with h | h <;> exact QueueItem.noConfusion h

def c10svc : Gen := fun _ _ => Except.error ("down").toList

def c10grab : GrabFn := fun _ => none

def c10state : AppState :=
  { initState with response_text := ("a = 1").toList,
                   iteration_history := [("a = 1").toList],
                   problem_image := some ⟨"RGB".toList, 9⟩ }

/-- Witness for C10 at a concrete mid-session state and a failing
service, exercised on a `refine` queue item. -/
theorem c10_witness :
    solutionInv (processQueueStep c10svc c10grab c10state QueueItem.refine).state ∧
    (∀ img : PILImage,
      (QueueItem.refine = QueueItem.window (some img) ∨
        QueueItem.refine = QueueItem.clipboard (some img)) →
      (solve_with_iterations c10svc img 3).solution = none →
      (processQueueStep c10svc c10grab c10state QueueItem.refine).state.response_text
          = c10state.response_text ∧
      (processQueueStep c10svc c10grab c10state
          QueueItem.refine).state.iteration_history = c10state.iteration_history) :=
  c10_history_last_invariant c10svc c10grab QueueItem.refine c10state (Or.inr (by decide))

/-- Witness for C9 at the state reached right after a first
begin-area-capture. -/
theorem c9_witness :
    ((start_area_capture true (start_area_capture true initState).1).1.capturing = true) ∧
    (start_area_capture true (start_area_capture true initState).1).1.overlayGen
      = (start_area_capture true initState).1.overlayGen + 1 ∧
    (start_area_capture true (start_area_capture true initState).1).1.overlay
      = some ((start_area_capture true initState).1.overlayGen + 1) ∧
    (start_area_capture true (start_area_capture true initState).1).1.mouseListeners
      = (start_area_capture true initState).1.mouseListeners + 1 :=
  c9_restart_not_ignored (start_area_capture true initState).1 rfl
